import Mathlib

/-!
Shallow embedding of the muMap core: the `Mesh` entity of
`src/meshcorr/tools/mesh_class.py` (lazy derived-state caching, resampling,
rank management) and the product-manifold correspondence filter of
`src/meshcorr/product_manifold_filters/product_manifold_filter.py`.

`numpy` float arrays around the Mesh cache machinery are modelled with
rational entries (the cache logic never branches on arithmetic); the
product-manifold filter, whose claims involve `exp`, is modelled over ℝ.
The routines of `geometric_utilities.py` and of the `igl`/`vedo` libraries
are repository or vendor code that is not part of the core sources, so the
Mesh operations are parameterised over a record of those routines.
-/

namespace MeshCorr

/-- One vertex: a 3-D point with rational coordinates. -/
abbrev Vec3 := ℚ × ℚ × ℚ

/-- Vertex array (an N×3 float array in the source). -/
abbrev V := List Vec3

/-- Face array: triangle index triples into the vertex array. -/
abbrev F := List (ℕ × ℕ × ℕ)

/-- A 1-D numeric array. -/
abbrev Arr := List ℚ

/-- A 2-D numeric array, row major. -/
abbrev Mat := List (List ℚ)

/-- An integer index array. -/
abbrev Idx := List ℕ

/-- The `.size` of a 2-D array: total number of entries. -/
def msize (m : Mat) : ℕ := (m.map List.length).sum

/-- Entry `m[p, q]` of a 2-D array (0 outside the stored extent). -/
def entry (m : Mat) (p q : ℕ) : ℚ := (m.getD p []).getD q 0

/-- Fancy-indexing `a[idx]` of a 1-D array. -/
def select (a : Arr) (idx : Idx) : Arr := idx.map (fun t => a.getD t 0)

/-- Row sub-selection `v[idx]` of a vertex array. -/
def selectV (v : V) (idx : Idx) : V :=
  idx.map (fun t => v.getD t ((0 : ℚ), (0 : ℚ), (0 : ℚ)))

/-- The sub-matrix `g[idx][:, idx]`. -/
def subMatrix (g : Mat) (idx : Idx) : Mat :=
  idx.map (fun p => idx.map (fun q => entry g p q))

/-- External geometry routines used by `mesh_class.py`: the functions of
`geometric_utilities` and the `igl`/`vedo` bindings. These live outside the
core source files, so `Mesh` operations take the record as a parameter.
`vedo_decimate` returns a 5-tuple in the source of which only the decimated
vertices, faces and the selected-index array are ever consumed; the record
keeps exactly those three. -/
structure Geometry where
  geodesicMatrix : V → F → Mat
  vedo_decimate : V → F → Option ℕ → Option ℚ → V × F × Idx
  extrapolate_geodesic_matrix : V → V → Mat → F → Mat
  reorder_mesh : V → F → Idx → V × F
  cotmatrix : V → F → Mat
  massmatrix : V → F → Mat
  laplace_eigen_decomposition : Mat → Mat → ℕ → Arr × Mat
  per_vertex_normals : V → F → Mat
  gaussianCurvature : V → F → Arr
  vedo_subdivide : V → F → V × F × Idx

/-- The state of a `mesh_class.Mesh` object: its name-mangled private
attributes. `gaussianC` models `__gaussian`, which `__init__` never creates;
`none` means the attribute does not exist, so that reading it raises
`AttributeError`. Scalar fields are the insertion-ordered dictionary
`__scalars`, modelled as an association list. -/
structure Mesh where
  v : V
  f : F
  g : Mat
  k : ℕ
  l : Mat
  mass : Mat
  normals : Mat
  eigen : Arr × Mat
  scalars : List (String × Arr)
  type : String
  gaussianC : Option Arr

/-- `Mesh.__init__(v, f=[], g=[], k=100, type='')`: stores the geometry and
initialises every cache to the empty array. `__gaussian` is not touched. -/
def Mesh.init (v : V) (f : F) (g : Mat) (k : ℕ) (ty : String) : Mesh :=
  { v := v, f := f, g := g, k := k, l := [], mass := [], normals := [],
    eigen := ([], []), scalars := [], type := ty, gaussianC := none }

/-- `Mesh.N()`: the vertex count. -/
def Mesh.N (m : Mesh) : ℕ := m.v.length

/-- The `v` property setter: the source executes `self.__v = v` and nothing
else — no cache field is modified. -/
def Mesh.setV (m : Mesh) (v : V) : Mesh := { m with v := v }

/-- The `f` property setter: the source executes `self.__f = f` and nothing
else — no cache field is modified. -/
def Mesh.setF (m : Mesh) (f : F) : Mesh := { m with f := f }

/-- The `k` (rank) setter: when the new rank is at most the current one, both
cached eigenpair arrays are truncated along their last axis (`e[..., :k]`);
otherwise both are reset to empty arrays. The setter calls no solver. -/
def Mesh.setK (m : Mesh) (k : ℕ) : Mesh :=
  if k ≤ m.k then
    { m with eigen := ((m.eigen.1).take k, (m.eigen.2).map (fun row => row.take k)),
             k := k }
  else
    { m with eigen := ([], []), k := k }

/-- The `g` property getter: on an empty cache, meshes of at most 500
vertices get `util.geodesicMatrix(v, f)` directly, larger meshes are
decimated to a 500-vertex proxy whose exact geodesic matrix is extrapolated
back to the full vertex set; the computed matrix is stored in `__g`. The
pair returned is (value, object after the read). -/
def Mesh.gGet (U : Geometry) (m : Mesh) : Mat × Mesh :=
  if msize m.g = 0 then
    if m.N ≤ 500 then
      let g := U.geodesicMatrix m.v m.f
      (g, { m with g := g })
    else
      let d := U.vedo_decimate m.v m.f (some 500) none
      let gp := U.geodesicMatrix d.1 d.2.1
      let ge := U.extrapolate_geodesic_matrix d.1 m.v gp d.2.1
      (ge, { m with g := ge })
  else (m.g, m)

/-- The `l` (cotangent Laplacian) property getter: lazily computes
`igl.cotmatrix(v, f)` into `__l` when the cache is empty. -/
def Mesh.lGet (U : Geometry) (m : Mesh) : Mat × Mesh :=
  if msize m.l = 0 then
    let l := U.cotmatrix m.v m.f
    (l, { m with l := l })
  else (m.l, m)

/-- The `gaussian` property getter. `__init__` never creates the backing
`__gaussian` attribute, so the read `self.__gaussian.size` raises
`AttributeError` on every freshly constructed object; only after the setter
has stored an array does the lazy-compute branch become reachable. -/
def Mesh.gaussianGet (U : Geometry) (m : Mesh) : Except String Arr × Mesh :=
  match m.gaussianC with
  | none => (Except.error "AttributeError", m)
  | some a =>
    if a.length = 0 then
      let gc := U.gaussianCurvature m.v m.f
      (Except.ok gc, { m with gaussianC := some gc })
    else (Except.ok a, m)

/-- `Mesh.__getitem__(idx)`: an index array of full length reorders the mesh
through `util.reorder_mesh`, any other length keeps `v[idx]` as a point
cloud with an empty face array; a cached geodesic matrix is sub-selected as
`g[idx][:, idx]`, and every scalar field is carried restricted to `idx`.
The source also reads `self.eigen` into discarded locals; that read does not
contribute to the result and is omitted here. -/
def Mesh.getitem (U : Geometry) (m : Mesh) (idx : Idx) : Mesh :=
  let vf := if idx.length = m.N then U.reorder_mesh m.v m.f idx
            else (selectV m.v idx, ([] : F))
  let g := if msize m.g = 0 then ([] : Mat) else subMatrix m.g idx
  let res := Mesh.init vf.1 vf.2 g m.k m.type
  { res with scalars := m.scalars.map (fun s => (s.1, select s.2 idx)) }

/-- `Mesh.decimate(N, frac)`: decimates through `util.vedo_decimate`,
sub-selects a cached geodesic matrix by the surviving indices and carries
every scalar field restricted to them; returns the new mesh and the index
array. -/
def Mesh.decimate (U : Geometry) (m : Mesh) (target : Option ℕ) (frac : Option ℚ) :
    Mesh × Idx :=
  let d := U.vedo_decimate m.v m.f target frac
  let g := if msize m.g = 0 then ([] : Mat) else subMatrix m.g d.2.2
  let res := Mesh.init d.1 d.2.1 g m.k m.type
  ({ res with scalars := m.scalars.map (fun s => (s.1, select s.2 d.2.2)) }, d.2.2)

/-- The `while` loop of `Mesh.upsample`, with explicit fuel. The `idx`
variable is unassigned until the body has run once; returning with it still
unassigned raises `NameError` in the source, modelled (like fuel exhaustion,
which models non-termination) as `none`. -/
def upsampleLoop (U : Geometry) (target : ℕ) :
    ℕ → V → F → Option Idx → Option (V × F × Idx)
  | 0, _, _, _ => none
  | fuel + 1, v, f, idx? =>
    if v.length < target then
      let s := U.vedo_subdivide v f
      upsampleLoop U target fuel s.1 s.2.1 (some s.2.2)
    else idx?.map (fun i => (v, f, i))

/-- `Mesh.upsample(target)`: subdivides until the vertex count reaches the
target, extrapolates the geodesic matrix of `self` (read through the lazy
`g` getter) onto the refined vertices, and builds the result with the bare
constructor — no scalar field is copied onto the new mesh. -/
def Mesh.upsample (U : Geometry) (fuel : ℕ) (m : Mesh) (target : ℕ) :
    Option (Mesh × Idx) :=
  match upsampleLoop U target fuel m.v m.f none with
  | none => none
  | some r =>
    let g := U.extrapolate_geodesic_matrix m.v r.1 (Mesh.gGet U m).1 m.f
    some (Mesh.init r.1 r.2.1 g m.k m.type, r.2.2)

/-- Modelled from the spec: `util.reorder_mesh` lives in
`geometric_utilities.py`, repository code that is not among the core source
files. Under a full-length index array `idx` the vertices are reordered so
that new vertex `t` is old vertex `idx[t]`, and each face index is remapped
to the position its old index occupies in `idx`. -/
def reorder_mesh_model (v : V) (f : F) (idx : Idx) : V × F :=
  (selectV v idx,
   f.map (fun tr => (idx.indexOf tr.1, idx.indexOf tr.2.1, idx.indexOf tr.2.2)))

/-- The external geometry routines again, now fallible: each may raise (the
error is an opaque message), matching the propagation behaviour of the
Python calls inside the lazy getters. -/
structure GeometryE where
  geodesicMatrix : V → F → Except String Mat
  vedo_decimate : V → F → Option ℕ → Option ℚ → Except String (V × F × Idx)
  extrapolate_geodesic_matrix : V → V → Mat → F → Except String Mat
  cotmatrix : V → F → Except String Mat
  massmatrix : V → F → Except String Mat
  laplace_eigen_decomposition : Mat → Mat → ℕ → Except String (Arr × Mat)

/-- The `g` property getter with fallible external calls. A raise inside any
call propagates before the assignment `self.__g = ...` executes, so the
object state returned alongside an error is the original one. -/
def Mesh.gGetE (U : GeometryE) (m : Mesh) : Except String Mat × Mesh :=
  if msize m.g = 0 then
    if m.N ≤ 500 then
      match U.geodesicMatrix m.v m.f with
      | Except.error e => (Except.error e, m)
      | Except.ok g => (Except.ok g, { m with g := g })
    else
      match U.vedo_decimate m.v m.f (some 500) none with
      | Except.error e => (Except.error e, m)
      | Except.ok d =>
        match U.geodesicMatrix d.1 d.2.1 with
        | Except.error e => (Except.error e, m)
        | Except.ok gp =>
          match U.extrapolate_geodesic_matrix d.1 m.v gp d.2.1 with
          | Except.error e => (Except.error e, m)
          | Except.ok ge => (Except.ok ge, { m with g := ge })
  else (Except.ok m.g, m)

/-- The `l` property getter with a fallible `igl.cotmatrix` call. -/
def Mesh.lGetE (U : GeometryE) (m : Mesh) : Except String Mat × Mesh :=
  if msize m.l = 0 then
    match U.cotmatrix m.v m.f with
    | Except.error e => (Except.error e, m)
    | Except.ok l => (Except.ok l, { m with l := l })
  else (Except.ok m.l, m)

/-- The `mass` property getter with a fallible `igl.massmatrix` call. -/
def Mesh.massGetE (U : GeometryE) (m : Mesh) : Except String Mat × Mesh :=
  if msize m.mass = 0 then
    match U.massmatrix m.v m.f with
    | Except.error e => (Except.error e, m)
    | Except.ok mm => (Except.ok mm, { m with mass := mm })
  else (Except.ok m.mass, m)

/-- The `eigen` property getter with fallible external calls: when either
cached eigenpair array is empty, the source evaluates `self.l`, then
`self.mass` (each a lazy getter that may populate its own cache), then the
eigendecomposition, and only then assigns `self.__eigen`. A raise at any of
those steps leaves `__eigen` untouched. -/
def Mesh.eigenGetE (U : GeometryE) (m : Mesh) : Except String (Arr × Mat) × Mesh :=
  if m.eigen.1.length = 0 ∨ msize m.eigen.2 = 0 then
    match Mesh.lGetE U m with
    | (Except.error e, m1) => (Except.error e, m1)
    | (Except.ok l, m1) =>
      match Mesh.massGetE U m1 with
      | (Except.error e, m2) => (Except.error e, m2)
      | (Except.ok mm, m2) =>
        match U.laplace_eigen_decomposition l mm m2.k with
        | Except.error e => (Except.error e, m2)
        | Except.ok eg => (Except.ok eg, { m2 with eigen := eg })
  else (Except.ok m.eigen, m)

end MeshCorr

namespace PMF

/-- `gaussian_kernel(x, sigma) = exp(-0.5 * (x / sigma) ** 2)`, applied
entrywise in the source; modelled on scalars over ℝ. -/
noncomputable def gaussian_kernel (x sigma : ℝ) : ℝ :=
  Real.exp (-(1 / 2) * (x / sigma) ^ 2)

/-- All (p, q) positions of an nx × ny matrix, row major. -/
def pairList (nx ny : ℕ) : List (ℕ × ℕ) :=
  (List.range nx).flatMap (fun p => (List.range ny).map (fun q => (p, q)))

/-- The maximum of a list of reals (`.max()` of a nonempty array; the value
on the empty list, where numpy raises, is an arbitrary 0). -/
noncomputable def listMax : List ℝ → ℝ
  | [] => 0
  | x :: xs => xs.foldl max x

/-- `K.max()` over an nx × ny matrix given as a function. -/
noncomputable def matMax (nx ny : ℕ) (K : ℕ → ℕ → ℝ) : ℝ :=
  listMax ((pairList nx ny).map (fun pq => K pq.1 pq.2))

/-- The unscaled product-manifold kernel: entry (p, q) of
`Kx[:, ix].dot(Ky[:, iy].T)` where `Kx`, `Ky` are the entrywise Gaussian
kernels of `gx`, `gy`, i.e. the dot product over the correspondence of the
two Gaussian-weighted geodesic profiles. `numpy` requires the two index
arrays to have equal length; `zip` realises the sum over the paired
entries. -/
noncomputable def pm_kernel_raw (gx gy : ℕ → ℕ → ℝ) (ix iy : List ℕ)
    (sigma : ℝ) (p q : ℕ) : ℝ :=
  ((ix.zip iy).map
    (fun t => gaussian_kernel (gx p t.1) sigma * gaussian_kernel (gy q t.2) sigma)).sum

/-- `product_manifold_kernel(gx, gy, ix, iy, sigma)` — the source defines
this function twice, verbatim identically, and the second definition is the
one in effect — returns the raw kernel rescaled by its maximum entry
`K / K.max()`. Matrix extents are passed explicitly. -/
noncomputable def product_manifold_kernel (nx ny : ℕ) (gx gy : ℕ → ℕ → ℝ)
    (ix iy : List ℕ) (sigma : ℝ) (p q : ℕ) : ℝ :=
  pm_kernel_raw gx gy ix iy sigma p q /
    matMax nx ny (pm_kernel_raw gx gy ix iy sigma)

/-- `product_manifold_filter_correspondence(assignment_functor, gx, gy, i, j,
sigma, gamma, iterations)`: the `for` loop written as recursion on the
iteration count — each round builds the kernel from the current
correspondence and bandwidth, replaces the correspondence by the assignment
functor's output, and multiplies the bandwidth by `gamma`. -/
noncomputable def product_manifold_filter_correspondence
    (A : (ℕ → ℕ → ℝ) → List ℕ × List ℕ) (nx ny : ℕ) (gx gy : ℕ → ℕ → ℝ) :
    List ℕ → List ℕ → ℝ → ℝ → ℕ → List ℕ × List ℕ
  | i, j, _, _, 0 => (i, j)
  | i, j, sigma, gamma, n + 1 =>
    let P := product_manifold_kernel nx ny gx gy i j sigma
    let ij := A P
    product_manifold_filter_correspondence A nx ny gx gy ij.1 ij.2 (sigma * gamma) gamma n

/-- `product_manifold_filter_assignment(assignment_functor, gx, gy, P, sigma,
gamma, iterations)`: discretises `P` once through the assignment functor and
delegates to `product_manifold_filter_correspondence`. -/
noncomputable def product_manifold_filter_assignment
    (A : (ℕ → ℕ → ℝ) → List ℕ × List ℕ) (nx ny : ℕ) (gx gy : ℕ → ℕ → ℝ)
    (P : ℕ → ℕ → ℝ) (sigma gamma : ℝ) (iterations : ℕ) : List ℕ × List ℕ :=
  let ij := A P
  product_manifold_filter_correspondence A nx ny gx gy ij.1 ij.2 sigma gamma iterations

/-- Modelled from the spec: one refinement round as §4.3 of the design
describes it. Build `K[p, q]` as the dot product, over the positions `t` of
the two (equal-length) index sequences, of the Gaussian-weighted geodesic
profiles of `p` and `q` against the current correspondence, rescaled by the
maximum entry of `K`; replace `(i, j)` by `assignmentStrategy(K)`; anneal
the bandwidth by `gamma`. -/
noncomputable def spec_refinement_round
    (A : (ℕ → ℕ → ℝ) → List ℕ × List ℕ) (nx ny : ℕ) (gx gy : ℕ → ℕ → ℝ)
    (gamma : ℝ) : (List ℕ × List ℕ) × ℝ → (List ℕ × List ℕ) × ℝ :=
  fun s =>
    let K0 := fun p q =>
      ∑ t ∈ Finset.range (min s.1.1.length s.1.2.length),
        gaussian_kernel (gx p (s.1.1.getD t 0)) s.2 *
          gaussian_kernel (gy q (s.1.2.getD t 0)) s.2
    let K := fun p q => K0 p q / matMax nx ny K0
    (A K, s.2 * gamma)

end PMF

namespace MeshCorr

/-- A concrete instance of the external geometry routines, used to evaluate
the Mesh operations on explicit inputs. Its outputs are chosen distinctive
so that a stale cached value is distinguishable from a recomputed one. -/
def geoW : Geometry :=
  { geodesicMatrix := fun _ _ => [[7]]
    vedo_decimate := fun v f _ _ => (v, f, List.range v.length)
    extrapolate_geodesic_matrix := fun _ _ g _ => g
    reorder_mesh := reorder_mesh_model
    cotmatrix := fun _ _ => [[9]]
    massmatrix := fun _ _ => [[8]]
    laplace_eigen_decomposition := fun _ _ k => ([(k : ℚ)], [[(k : ℚ)]])
    per_vertex_normals := fun _ _ => [[0, 0, 1]]
    gaussianCurvature := fun _ _ => [0]
    vedo_subdivide := fun v f => (v ++ [((0 : ℚ), 0, 0)], f, List.range v.length) }

/-- A concrete mesh whose derived caches are all populated. -/
def meshC1 : Mesh :=
  { v := [((0 : ℚ), 0, 0)], f := [(0, 0, 0)], g := [[0]], k := 100,
    l := [[1]], mass := [[2]], normals := [[0, 0, 1]], eigen := ([1], [[1]]),
    scalars := [], type := "", gaussianC := none }

/-- A concrete mesh with a rank-3 cached eigenbasis. -/
def meshC6 : Mesh :=
  { v := [((0 : ℚ), 0, 0), (1, 0, 0)], f := [], g := [], k := 3,
    l := [], mass := [], normals := [], eigen := ([1, 2, 3], [[1, 2, 3], [4, 5, 6]]),
    scalars := [], type := "", gaussianC := none }

/-- A concrete small mesh with an empty geodesic cache. -/
def mesh7 : Mesh := Mesh.init [((0 : ℚ), 0, 0)] [] [] 100 ""

/-- A concrete two-vertex mesh with a scalar field, a cached geodesic matrix
and one face. -/
def mesh9 : Mesh :=
  { v := [((0 : ℚ), 0, 0), (1, 1, 1)], f := [(0, 1, 1)], g := [[0, 1], [1, 0]],
    k := 100, l := [], mass := [], normals := [], eigen := ([], []),
    scalars := [("h", [1, 2])], type := "t", gaussianC := none }

/-- A concrete one-vertex mesh with a named scalar field, used for the
resampling-transport claims. -/
def mesh5 : Mesh :=
  { v := [((1 : ℚ), 2, 3)], f := [], g := [[0]], k := 100,
    l := [], mass := [], normals := [], eigen := ([], []),
    scalars := [("h", [1])], type := "t", gaussianC := none }

/-- Fallible geometry routines that all raise. -/
def errGeo : GeometryE :=
  { geodesicMatrix := fun _ _ => Except.error "boom"
    vedo_decimate := fun _ _ _ _ => Except.error "boom"
    extrapolate_geodesic_matrix := fun _ _ _ _ => Except.error "boom"
    cotmatrix := fun _ _ => Except.error "boom"
    massmatrix := fun _ _ => Except.error "boom"
    laplace_eigen_decomposition := fun _ _ _ => Except.error "boom" }

end MeshCorr

namespace PMF

/-- The seed of a left fold by `max` bounds the fold from below. -/
theorem le_foldl_max (l : List ℝ) (a : ℝ) : a ≤ l.foldl max a := by
  induction l generalizing a with
  | nil => exact le_rfl
  | cons x xs ih => exact le_trans (le_max_left a x) (ih (max a x))

/-- Every member of a list bounds its `max` fold from below. -/
theorem mem_le_foldl_max {x : ℝ} {l : List ℝ} (h : x ∈ l) (a : ℝ) :
    x ≤ l.foldl max a := by
  induction l generalizing a with
  | nil => cases h
  | cons y ys ih =>
    rcases List.mem_cons.mp h with h1 | h2
    · subst h1
      exact le_trans (le_max_right a x) (le_foldl_max ys (max a x))
    · exact ih h2 (max a y)

/-- A `max` fold returns its seed or a member of the list. -/
theorem foldl_max_mem (l : List ℝ) (a : ℝ) :
    l.foldl max a = a ∨ l.foldl max a ∈ l := by
  induction l generalizing a with
  | nil => exact Or.inl rfl
  | cons y ys ih =>
    rcases ih (max a y) with h | h
    · rcases max_choice a y with hm | hm
      · exact Or.inl (by rw [List.foldl_cons, h, hm])
      · exact Or.inr (by rw [List.foldl_cons, h, hm]; exact List.mem_cons_self y ys)
    · exact Or.inr (List.mem_cons_of_mem y h)

/-- A `max` fold commutes with division by a positive constant. -/
theorem foldl_max_div (c : ℝ) (hc : 0 < c) (l : List ℝ) :
    ∀ a : ℝ, (l.map (fun x => x / c)).foldl max (a / c) = l.foldl max a / c := by
  induction l with
  | nil => intro a; rfl
  | cons y ys ih =>
    intro a
    simp only [List.map_cons, List.foldl_cons]
    rw [max_div_div_right hc.le, ih (max a y)]

/-- Every member of a list is at most `listMax`. -/
theorem le_listMax {x : ℝ} {l : List ℝ} (h : x ∈ l) : x ≤ listMax l := by
  cases l with
  | nil => cases h
  | cons y ys =>
    rcases List.mem_cons.mp h with h1 | h2
    · subst h1; exact le_foldl_max ys x
    · exact mem_le_foldl_max h2 y

/-- `listMax` of a nonempty list is one of its members. -/
theorem listMax_mem {l : List ℝ} (h : l ≠ []) : listMax l ∈ l := by
  cases l with
  | nil => exact absurd rfl h
  | cons y ys =>
    rcases foldl_max_mem ys y with h1 | h1
    · rw [listMax, h1]; exact List.mem_cons_self y ys
    · exact List.mem_cons_of_mem y (by rw [listMax]; exact h1)

/-- `listMax` commutes with division by a positive constant. -/
theorem listMax_map_div {c : ℝ} (hc : 0 < c) (l : List ℝ) :
    listMax (l.map (fun x => x / c)) = listMax l / c := by
  cases l with
  | nil => simp [listMax]
  | cons y ys => exact foldl_max_div c hc ys y

/-- Membership in the position list of an nx × ny matrix. -/
theorem pairList_mem {nx ny p q : ℕ} :
    (p, q) ∈ pairList nx ny ↔ p < nx ∧ q < ny := by
  simp [pairList, List.mem_flatMap, List.mem_map, List.mem_range, Prod.ext_iff]

/-- The position list is nonempty when both extents are positive. -/
theorem pairList_ne_nil {nx ny : ℕ} (hnx : 0 < nx) (hny : 0 < ny) :
    pairList nx ny ≠ [] :=
  List.ne_nil_of_mem (pairList_mem.mpr ⟨hnx, hny⟩)

/-- Every in-range entry is at most the matrix maximum. -/
theorem le_matMax {nx ny p q : ℕ} (K : ℕ → ℕ → ℝ) (hp : p < nx) (hq : q < ny) :
    K p q ≤ matMax nx ny K :=
  le_listMax (List.mem_map.mpr ⟨(p, q), pairList_mem.mpr ⟨hp, hq⟩, rfl⟩)

/-- The matrix maximum of a nonempty matrix is attained at an in-range
position. -/
theorem matMax_attained {nx ny : ℕ} (K : ℕ → ℕ → ℝ) (hnx : 0 < nx) (hny : 0 < ny) :
    ∃ p, p < nx ∧ ∃ q, q < ny ∧ matMax nx ny K = K p q := by
  have hne : (pairList nx ny).map (fun pq => K pq.1 pq.2) ≠ [] := by
    simpa using pairList_ne_nil hnx hny
  rcases List.mem_map.mp (listMax_mem hne) with ⟨pq, hmem, heq⟩
  rcases pairList_mem.mp hmem with ⟨hp, hq⟩
  exact ⟨pq.1, hp, pq.2, hq, heq.symm⟩

/-- The matrix maximum commutes with division by a positive constant. -/
theorem matMax_div (nx ny : ℕ) (K : ℕ → ℕ → ℝ) {c : ℝ} (hc : 0 < c) :
    matMax nx ny (fun p q => K p q / c) = matMax nx ny K / c := by
  unfold matMax
  rw [show (pairList nx ny).map (fun pq => K pq.1 pq.2 / c)
        = ((pairList nx ny).map (fun pq => K pq.1 pq.2)).map (fun x => x / c) by
      rw [List.map_map]; rfl]
  exact listMax_map_div hc _

end PMF

namespace PMF

/-- The Gaussian kernel is strictly positive. -/
theorem gaussian_kernel_pos (x sigma : ℝ) : 0 < gaussian_kernel x sigma :=
  Real.exp_pos _

/-- The raw product-manifold kernel is strictly positive whenever the
correspondence is nonempty (and its two index sequences have the numpy-
required equal length). -/
theorem pm_kernel_raw_pos (gx gy : ℕ → ℕ → ℝ) {ix iy : List ℕ} (sigma : ℝ)
    (hix : ix ≠ []) (hlen : ix.length = iy.length) (p q : ℕ) :
    0 < pm_kernel_raw gx gy ix iy sigma p q := by
  unfold pm_kernel_raw
  apply List.sum_pos
  · intro x hx
    rcases List.mem_map.mp hx with ⟨t, _, rfl⟩
    exact mul_pos (gaussian_kernel_pos _ _) (gaussian_kernel_pos _ _)
  · have h1 : 0 < ix.length := List.length_pos.mpr hix
    have h2 : 0 < (ix.zip iy).length := by
      rw [List.length_zip, ← hlen, Nat.min_self]
      exact h1
    have h3 : ix.zip iy ≠ [] := List.length_pos.mp h2
    intro hnil
    rw [List.map_eq_nil_iff] at hnil
    exact h3 hnil

/-- C4: for a positive bandwidth and any well-formed inputs (positive matrix
extents, a nonempty correspondence of equal-length index sequences — the
minimal data contract), every entry of the rescaled product-manifold kernel
lies in the half-open interval (0, 1], and the maximum entry of the
rescaled kernel is exactly 1. -/
theorem pm_kernel_bounded (nx ny : ℕ) (gx gy : ℕ → ℕ → ℝ) (ix iy : List ℕ)
    (sigma : ℝ) (hnx : 0 < nx) (hny : 0 < ny) (hix : ix ≠ [])
    (hlen : ix.length = iy.length) (_hs : 0 < sigma) :
    (∀ p, p < nx → ∀ q, q < ny →
      0 < product_manifold_kernel nx ny gx gy ix iy sigma p q ∧
        product_manifold_kernel nx ny gx gy ix iy sigma p q ≤ 1) ∧
    matMax nx ny (product_manifold_kernel nx ny gx gy ix iy sigma) = 1 := by
  have hpos : ∀ p q, 0 < pm_kernel_raw gx gy ix iy sigma p q :=
    fun p q => pm_kernel_raw_pos gx gy sigma hix hlen p q
  have hM : 0 < matMax nx ny (pm_kernel_raw gx gy ix iy sigma) := by
    rcases matMax_attained (pm_kernel_raw gx gy ix iy sigma) hnx hny with
      ⟨p, hp, q, hq, heq⟩
    rw [heq]
    exact hpos p q
  constructor
  · intro p hp q hq
    constructor
    · exact div_pos (hpos p q) hM
    · exact (div_le_one hM).mpr (le_matMax (pm_kernel_raw gx gy ix iy sigma) hp hq)
  · have h := matMax_div nx ny (pm_kernel_raw gx gy ix iy sigma) hM
    calc matMax nx ny (product_manifold_kernel nx ny gx gy ix iy sigma)
        = matMax nx ny (pm_kernel_raw gx gy ix iy sigma) /
            matMax nx ny (pm_kernel_raw gx gy ix iy sigma) := h
      _ = 1 := div_self (ne_of_gt hM)

/-- Witness for `pm_kernel_bounded` at a concrete 1 × 1 instance. -/
theorem pm_kernel_bounded_witness :
    ((0 : ℕ) < 1 ∧ ([0] : List ℕ) ≠ [] ∧
      ([0] : List ℕ).length = ([0] : List ℕ).length ∧ (0 : ℝ) < 1) ∧
    ((∀ p, p < 1 → ∀ q, q < 1 →
      0 < product_manifold_kernel 1 1 (fun _ _ => 0) (fun _ _ => 0) [0] [0] 1 p q ∧
        product_manifold_kernel 1 1 (fun _ _ => 0) (fun _ _ => 0) [0] [0] 1 p q ≤ 1) ∧
      matMax 1 1 (product_manifold_kernel 1 1 (fun _ _ => 0) (fun _ _ => 0) [0] [0] 1) = 1) :=
  ⟨⟨Nat.one_pos, by decide, rfl, one_pos⟩,
   pm_kernel_bounded 1 1 (fun _ _ => 0) (fun _ _ => 0) [0] [0] 1
     Nat.one_pos Nat.one_pos (by decide) rfl one_pos⟩

/-- C3: with `iterations = 0` the correspondence-refinement loop returns the
input correspondence unchanged, and the matrix entry point reduces to a
single application of the assignment functor to the soft correspondence
matrix. -/
theorem pmf_zero_iterations (A : (ℕ → ℕ → ℝ) → List ℕ × List ℕ) (nx ny : ℕ)
    (gx gy : ℕ → ℕ → ℝ) (i j : List ℕ) (P : ℕ → ℕ → ℝ) (sigma gamma : ℝ) :
    product_manifold_filter_correspondence A nx ny gx gy i j sigma gamma 0 = (i, j) ∧
    product_manifold_filter_assignment A nx ny gx gy P sigma gamma 0 = A P :=
  ⟨rfl, rfl⟩

/-- A sum over the zip of two lists is a sum over the positions below the
minimum of their lengths. -/
theorem zip_map_sum_eq (f : ℕ → ℕ → ℝ) :
    ∀ ix iy : List ℕ,
      ((ix.zip iy).map (fun t => f t.1 t.2)).sum
        = ∑ t ∈ Finset.range (min ix.length iy.length),
            f (ix.getD t 0) (iy.getD t 0) := by
  intro ix
  induction ix with
  | nil => intro iy; simp
  | cons a ix' ih =>
    intro iy
    cases iy with
    | nil => simp
    | cons b iy' =>
      simp only [List.zip_cons_cons, List.map_cons, List.sum_cons, List.length_cons]
      rw [Nat.succ_min_succ, Finset.sum_range_succ']
      simp only [List.getD_cons_succ, List.getD_cons_zero]
      rw [ih iy']
      exact add_comm _ _

/-- C2: for every assignment functor and all inputs, the refinement loop is
exactly the n-fold iterate of the round described by the design — build the
max-rescaled kernel of Gaussian-weighted geodesic-profile dot products from
the current correspondence and bandwidth, replace the correspondence by the
assignment functor's output, anneal the bandwidth by `gamma` — and the
correspondence after the final round is what is returned. -/
theorem refine_is_iterated_spec_round (A : (ℕ → ℕ → ℝ) → List ℕ × List ℕ)
    (nx ny : ℕ) (gx gy : ℕ → ℕ → ℝ) (gamma : ℝ) :
    ∀ (n : ℕ) (i j : List ℕ) (sigma : ℝ),
      product_manifold_filter_correspondence A nx ny gx gy i j sigma gamma n
        = ((spec_refinement_round A nx ny gx gy gamma)^[n] ((i, j), sigma)).1 := by
  intro n
  induction n with
  | zero => intro i j sigma; rfl
  | succ n ih =>
    intro i j sigma
    have hraw : pm_kernel_raw gx gy i j sigma
        = fun p q => ∑ t ∈ Finset.range (min i.length j.length),
            gaussian_kernel (gx p (i.getD t 0)) sigma *
              gaussian_kernel (gy q (j.getD t 0)) sigma := by
      funext p q
      exact zip_map_sum_eq
        (fun a b => gaussian_kernel (gx p a) sigma * gaussian_kernel (gy q b) sigma) i j
    have hker : product_manifold_kernel nx ny gx gy i j sigma
        = fun p q =>
            (∑ t ∈ Finset.range (min i.length j.length),
              gaussian_kernel (gx p (i.getD t 0)) sigma *
                gaussian_kernel (gy q (j.getD t 0)) sigma) /
            matMax nx ny (fun p' q' =>
              ∑ t ∈ Finset.range (min i.length j.length),
                gaussian_kernel (gx p' (i.getD t 0)) sigma *
                  gaussian_kernel (gy q' (j.getD t 0)) sigma) := by
      funext p q
      unfold product_manifold_kernel
      rw [hraw]
    have hstep : spec_refinement_round A nx ny gx gy gamma ((i, j), sigma)
        = (A (product_manifold_kernel nx ny gx gy i j sigma), sigma * gamma) := by
      exact congrArg (fun K => (A K, sigma * gamma)) hker.symm
    calc product_manifold_filter_correspondence A nx ny gx gy i j sigma gamma (n + 1)
        = product_manifold_filter_correspondence A nx ny gx gy
            (A (product_manifold_kernel nx ny gx gy i j sigma)).1
            (A (product_manifold_kernel nx ny gx gy i j sigma)).2
            (sigma * gamma) gamma n := rfl
      _ = ((spec_refinement_round A nx ny gx gy gamma)^[n]
            (((A (product_manifold_kernel nx ny gx gy i j sigma)).1,
              (A (product_manifold_kernel nx ny gx gy i j sigma)).2),
             sigma * gamma)).1 := ih _ _ _
      _ = ((spec_refinement_round A nx ny gx gy gamma)^[n]
            (spec_refinement_round A nx ny gx gy gamma ((i, j), sigma))).1 := by
            rw [hstep]
      _ = ((spec_refinement_round A nx ny gx gy gamma)^[n + 1] ((i, j), sigma)).1 := by
            rw [Function.iterate_succ_apply]

end PMF

namespace MeshCorr

/-- C10: on every freshly constructed Mesh, reading the `gaussian` property
raises — the backing name-mangled attribute is never created by the
constructor, so the attribute access fails before the lazy-compute branch
can run — and the object is left unchanged. -/
theorem gaussian_read_always_raises (U : Geometry) (v : V) (f : F) (g : Mat)
    (k : ℕ) (ty : String) :
    Mesh.gaussianGet U (Mesh.init v f g k ty)
      = (Except.error "AttributeError", Mesh.init v f g k ty) := rfl

/-- C1 (refuting the claimed invalidation): on a concrete mesh whose derived
caches are all populated, assigning new vertices through the `v` setter
leaves every cache field in place, a subsequent read of the Laplacian and
geodesic properties returns the stale cached values, and the stale Laplacian
differs from what recomputation on the new geometry would return; the `f`
setter behaves the same way. -/
theorem setters_do_not_clear_caches :
    (Mesh.setV meshC1 [((5 : ℚ), 5, 5)]).l = [[1]] ∧
    (Mesh.setV meshC1 [((5 : ℚ), 5, 5)]).g = [[0]] ∧
    (Mesh.setV meshC1 [((5 : ℚ), 5, 5)]).mass = [[2]] ∧
    (Mesh.setV meshC1 [((5 : ℚ), 5, 5)]).eigen = ([1], [[1]]) ∧
    (Mesh.setV meshC1 [((5 : ℚ), 5, 5)]).normals = [[0, 0, 1]] ∧
    (Mesh.lGet geoW (Mesh.setV meshC1 [((5 : ℚ), 5, 5)])).1 = [[1]] ∧
    (Mesh.gGet geoW (Mesh.setV meshC1 [((5 : ℚ), 5, 5)])).1 = [[0]] ∧
    geoW.cotmatrix [((5 : ℚ), 5, 5)] meshC1.f ≠ [[1]] ∧
    (Mesh.setF meshC1 []).l = [[1]] ∧
    (Mesh.setF meshC1 []).g = [[0]] ∧
    (Mesh.setF meshC1 []).eigen = ([1], [[1]]) := by
  refine ⟨rfl, rfl, rfl, rfl, rfl, rfl, rfl, ?_, rfl, rfl, rfl⟩
  decide

/-- C6: the rank setter truncates a cached eigenbasis in place when the rank
shrinks — the new eigenvalue array is the `k`-prefix (under an ascending
sort each kept eigenvalue is at most each dropped one, i.e. the lowest `k`
survive) and each eigenvector row keeps its first `k` entries — without
calling any solver (the result is a pure function of the old state), and
empties both cached eigenpair arrays when the rank grows. -/
theorem rank_setter_truncates_or_invalidates (m : Mesh) (k : ℕ) :
    (k ≤ m.k →
      Mesh.setK m k
          = { m with eigen := ((m.eigen.1).take k,
                              (m.eigen.2).map (fun row => row.take k)),
                     k := k } ∧
      (List.Sorted (· ≤ ·) m.eigen.1 →
        ∀ a ∈ (Mesh.setK m k).eigen.1, ∀ b ∈ (m.eigen.1).drop k, a ≤ b)) ∧
    (m.k < k → Mesh.setK m k = { m with eigen := ([], []), k := k }) := by
  constructor
  · intro hk
    have h1 : Mesh.setK m k
        = { m with eigen := ((m.eigen.1).take k,
                            (m.eigen.2).map (fun row => row.take k)),
                   k := k } := by
      unfold Mesh.setK
      rw [if_pos hk]
    refine ⟨h1, ?_⟩
    intro hsorted a ha b hb
    rw [h1] at ha
    have hs2 : List.Sorted (· ≤ ·) ((m.eigen.1).take k ++ (m.eigen.1).drop k) := by
      rw [List.take_append_drop]
      exact hsorted
    exact (List.pairwise_append.mp hs2).2.2 a ha b hb
  · intro hk
    unfold Mesh.setK
    rw [if_neg (not_le.mpr hk)]

/-- Witness for `rank_setter_truncates_or_invalidates` on a concrete mesh
with a rank-3 cached eigenbasis, shrinking the rank to 2 and growing it
to 5. -/
theorem rank_setter_witness :
    (2 ≤ meshC6.k ∧
      (Mesh.setK meshC6 2
          = { meshC6 with eigen := ((meshC6.eigen.1).take 2,
                                    (meshC6.eigen.2).map (fun row => row.take 2)),
                          k := 2 } ∧
       (List.Sorted (· ≤ ·) meshC6.eigen.1 →
         ∀ a ∈ (Mesh.setK meshC6 2).eigen.1,
           ∀ b ∈ (meshC6.eigen.1).drop 2, a ≤ b))) ∧
    (meshC6.k < 5 ∧ Mesh.setK meshC6 5 = { meshC6 with eigen := ([], []), k := 5 }) :=
  ⟨⟨by decide, (rank_setter_truncates_or_invalidates meshC6 2).1 (by decide)⟩,
   ⟨by decide, (rank_setter_truncates_or_invalidates meshC6 5).2 (by decide)⟩⟩

/-- C9: indexing with a strictly shorter index array yields a point cloud —
the selected vertices with an empty face array — while a full-length index
array reorders the vertices and remaps each face index to its position in
the index array (through the modelled `reorder_mesh`). -/
theorem getitem_pointcloud_or_permutation (U : Geometry) (m : Mesh) (idx : Idx) :
    (idx.length < m.N →
      (Mesh.getitem U m idx).f = [] ∧ (Mesh.getitem U m idx).v = selectV m.v idx) ∧
    (idx.length = m.N → U.reorder_mesh = reorder_mesh_model →
      (Mesh.getitem U m idx).v = selectV m.v idx ∧
      (Mesh.getitem U m idx).f
        = m.f.map (fun tr =>
            (idx.indexOf tr.1, idx.indexOf tr.2.1, idx.indexOf tr.2.2))) := by
  constructor
  · intro h
    have hne : ¬ idx.length = m.N := Nat.ne_of_lt h
    constructor <;> simp [Mesh.getitem, Mesh.init, hne]
  · intro heq hre
    constructor <;> simp [Mesh.getitem, Mesh.init, heq, hre, reorder_mesh_model]

/-- Witness for `getitem_pointcloud_or_permutation` on a concrete two-vertex
mesh: the strict sub-selection `[0]` is a point cloud and the full-length
index `[1, 0]` reorders and remaps. -/
theorem getitem_branches_witness :
    (([0] : Idx).length < mesh9.N ∧
      (Mesh.getitem geoW mesh9 [0]).f = [] ∧
      (Mesh.getitem geoW mesh9 [0]).v = selectV mesh9.v [0]) ∧
    (([1, 0] : Idx).length = mesh9.N ∧
      (Mesh.getitem geoW mesh9 [1, 0]).v = selectV mesh9.v [1, 0] ∧
      (Mesh.getitem geoW mesh9 [1, 0]).f
        = mesh9.f.map (fun tr =>
            (([1, 0] : Idx).indexOf tr.1, ([1, 0] : Idx).indexOf tr.2.1,
             ([1, 0] : Idx).indexOf tr.2.2))) :=
  ⟨⟨by decide, (getitem_pointcloud_or_permutation geoW mesh9 [0]).1 (by decide)⟩,
   ⟨rfl, (getitem_pointcloud_or_permutation geoW mesh9 [1, 0]).2 rfl rfl⟩⟩

end MeshCorr

namespace MeshCorr

/-- C5 counterexample to the claim as stated: upsampling is a
resolution-changing operation, yet on a concrete mesh carrying the named
scalar field "h" the upsampled mesh carries no scalar field at all. -/
theorem upsample_drops_scalar_fields :
    mesh5.scalars = [("h", [1])] ∧
    (Mesh.upsample geoW 2 mesh5 2).map (fun r => r.1.scalars) = some [] :=
  ⟨rfl, rfl⟩

/-- C5 (amended): index-based sub-selection and decimation carry every named
scalar field restricted to the new vertex set and transport a cached
geodesic matrix as `g[idx][:, idx]`; upsampling transports the geodesic
matrix by extrapolating the original mesh's geodesic matrix onto the new
vertices, but carries no scalar field — the upsampled mesh has none. -/
theorem resample_transport (U : Geometry) (m : Mesh) (idx : Idx)
    (target : Option ℕ) (frac : Option ℚ) (fuel tgt : ℕ) :
    ((Mesh.getitem U m idx).scalars
        = m.scalars.map (fun s => (s.1, select s.2 idx)) ∧
      (msize m.g ≠ 0 → (Mesh.getitem U m idx).g = subMatrix m.g idx)) ∧
    ((Mesh.decimate U m target frac).1.scalars
        = m.scalars.map (fun s =>
            (s.1, select s.2 (Mesh.decimate U m target frac).2)) ∧
      (msize m.g ≠ 0 →
        (Mesh.decimate U m target frac).1.g
          = subMatrix m.g (Mesh.decimate U m target frac).2)) ∧
    (∀ r, Mesh.upsample U fuel m tgt = some r →
      r.1.scalars = [] ∧
      r.1.g = U.extrapolate_geodesic_matrix m.v r.1.v (Mesh.gGet U m).1 m.f) := by
  refine ⟨⟨rfl, ?_⟩, ⟨rfl, ?_⟩, ?_⟩
  · intro h
    simp [Mesh.getitem, Mesh.init, h]
  · intro h
    simp [Mesh.decimate, Mesh.init, h]
  · intro r h
    unfold Mesh.upsample at h
    rcases hl : upsampleLoop U tgt fuel m.v m.f none with _ | r0
    · rw [hl] at h
      cases h
    · rw [hl] at h
      cases h
      exact ⟨rfl, rfl⟩

/-- Witness for `resample_transport` on concrete inputs: sub-selection and
decimation carry the scalar field and the cached geodesic matrix of a
concrete two-vertex mesh, and a concrete upsample run keeps the
extrapolated geodesic matrix but no scalar field. -/
theorem resample_transport_witness :
    (msize mesh9.g ≠ 0 ∧
      (Mesh.getitem geoW mesh9 [0]).scalars
        = mesh9.scalars.map (fun s => (s.1, select s.2 [0])) ∧
      (Mesh.getitem geoW mesh9 [0]).g = subMatrix mesh9.g [0]) ∧
    ((Mesh.decimate geoW mesh9 (some 1) none).1.scalars
        = mesh9.scalars.map (fun s =>
            (s.1, select s.2 (Mesh.decimate geoW mesh9 (some 1) none).2)) ∧
      (Mesh.decimate geoW mesh9 (some 1) none).1.g
        = subMatrix mesh9.g (Mesh.decimate geoW mesh9 (some 1) none).2) ∧
    (Mesh.upsample geoW 3 mesh9 3
        = some (Mesh.init [((0 : ℚ), 0, 0), (1, 1, 1), (0, 0, 0)] [(0, 1, 1)]
                  [[0, 1], [1, 0]] 100 "t", [0, 1]) ∧
      (Mesh.init [((0 : ℚ), 0, 0), (1, 1, 1), (0, 0, 0)] ([(0, 1, 1)] : F)
          [[0, 1], [1, 0]] 100 "t").scalars = [] ∧
      (Mesh.init [((0 : ℚ), 0, 0), (1, 1, 1), (0, 0, 0)] ([(0, 1, 1)] : F)
          [[0, 1], [1, 0]] 100 "t").g
        = geoW.extrapolate_geodesic_matrix mesh9.v
            [((0 : ℚ), 0, 0), (1, 1, 1), (0, 0, 0)]
            (Mesh.gGet geoW mesh9).1 mesh9.f) := by
  have RT := resample_transport geoW mesh9 [0] (some 1) none 3 3
  refine ⟨⟨by decide, RT.1.1, RT.1.2 (by decide)⟩,
          ⟨RT.2.1.1, RT.2.1.2 (by decide)⟩, rfl, ?_, ?_⟩
  · exact (RT.2.2 _ rfl).1
  · exact (RT.2.2 _ rfl).2

/-- C7: reading the geodesic property on an empty cache computes the matrix
directly (through the exact external routine) when the mesh has at most 500
vertices, and otherwise computes it on the 500-vertex decimated proxy and
extrapolates it back to the full vertex set; in both cases the result is
stored, and a subsequent read — under arbitrary geometry routines, i.e.
with no recomputation — returns the stored value and leaves the object
unchanged. -/
theorem geodesic_getter_lazy (U : Geometry) (m : Mesh) :
    (msize m.g = 0 → m.N ≤ 500 →
      Mesh.gGet U m
        = (U.geodesicMatrix m.v m.f, { m with g := U.geodesicMatrix m.v m.f })) ∧
    (msize m.g = 0 → 500 < m.N →
      (Mesh.gGet U m).1
        = U.extrapolate_geodesic_matrix (U.vedo_decimate m.v m.f (some 500) none).1
            m.v
            (U.geodesicMatrix (U.vedo_decimate m.v m.f (some 500) none).1
              (U.vedo_decimate m.v m.f (some 500) none).2.1)
            (U.vedo_decimate m.v m.f (some 500) none).2.1 ∧
      (Mesh.gGet U m).2 = { m with g := (Mesh.gGet U m).1 }) ∧
    (∀ U2 : Geometry, msize (Mesh.gGet U m).1 ≠ 0 →
      Mesh.gGet U2 (Mesh.gGet U m).2 = ((Mesh.gGet U m).1, (Mesh.gGet U m).2)) := by
  refine ⟨?_, ?_, ?_⟩
  · intro h0 hN
    simp [Mesh.gGet, h0, hN]
  · intro h0 hN
    constructor
    · simp [Mesh.gGet, h0, Nat.not_le.mpr hN]
    · simp [Mesh.gGet, h0, Nat.not_le.mpr hN]
  · intro U2 hne
    have hg : (Mesh.gGet U m).2.g = (Mesh.gGet U m).1 := by
      unfold Mesh.gGet
      split
      · split <;> rfl
      · rfl
    rcases hp : Mesh.gGet U m with ⟨val, m2⟩
    rw [hp] at hg hne
    have hg2 : m2.g = val := hg
    have hne2 : msize val ≠ 0 := hne
    show Mesh.gGet U2 m2 = (val, m2)
    unfold Mesh.gGet
    rw [if_neg (by rw [hg2]; exact hne2), hg2]

/-- Witness for `geodesic_getter_lazy`: a concrete one-vertex mesh with an
empty cache takes the direct branch, stores the result, and a second read
returns it unchanged. -/
theorem geodesic_getter_witness :
    (msize mesh7.g = 0 ∧ mesh7.N ≤ 500 ∧
      Mesh.gGet geoW mesh7
        = (geoW.geodesicMatrix mesh7.v mesh7.f,
           { mesh7 with g := geoW.geodesicMatrix mesh7.v mesh7.f })) ∧
    (msize (Mesh.gGet geoW mesh7).1 ≠ 0 ∧
      Mesh.gGet geoW (Mesh.gGet geoW mesh7).2
        = ((Mesh.gGet geoW mesh7).1, (Mesh.gGet geoW mesh7).2)) :=
  ⟨⟨rfl, by decide, (geodesic_getter_lazy geoW mesh7).1 rfl (by decide)⟩,
   ⟨by decide, (geodesic_getter_lazy geoW mesh7).2.2 geoW (by decide)⟩⟩

/-- The lazy `l` read never touches the eigen cache. -/
theorem lGetE_keeps_eigen (U : GeometryE) (m : Mesh) :
    (Mesh.lGetE U m).2.eigen = m.eigen := by
  unfold Mesh.lGetE
  by_cases h0 : msize m.l = 0
  · cases hc : U.cotmatrix m.v m.f <;> simp [h0, hc]
  · simp [h0]

/-- The lazy `mass` read never touches the eigen cache. -/
theorem massGetE_keeps_eigen (U : GeometryE) (m : Mesh) :
    (Mesh.massGetE U m).2.eigen = m.eigen := by
  unfold Mesh.massGetE
  by_cases h0 : msize m.mass = 0
  · cases hc : U.massmatrix m.v m.f <;> simp [h0, hc]
  · simp [h0]

/-- C8: when an external computation inside a lazy getter raises, the error
propagates to the caller and the corresponding cache keeps its prior state:
a failing geodesic read returns the object fully unchanged; a failing
eigen read (wherever in the chain `l`, `mass`, eigensolve the raise
happens) leaves the eigen cache exactly as it was; and a raising routine
does surface as an error from the getter. -/
theorem failed_compute_preserves_cache (U : GeometryE) (m : Mesh) (e : String) :
    ((Mesh.gGetE U m).1 = Except.error e → (Mesh.gGetE U m).2 = m) ∧
    ((Mesh.eigenGetE U m).1 = Except.error e →
      (Mesh.eigenGetE U m).2.eigen = m.eigen) ∧
    (msize m.g = 0 → m.N ≤ 500 → U.geodesicMatrix m.v m.f = Except.error e →
      (Mesh.gGetE U m).1 = Except.error e) ∧
    ((m.eigen.1.length = 0 ∨ msize m.eigen.2 = 0) →
      (Mesh.lGetE U m).1 = Except.error e →
      (Mesh.eigenGetE U m).1 = Except.error e) := by
  refine ⟨?_, ?_, ?_, ?_⟩
  · intro h
    by_cases h0 : msize m.g = 0
    · by_cases hN : m.N ≤ 500
      · cases hge : U.geodesicMatrix m.v m.f with
        | error a => simp [Mesh.gGetE, h0, hN, hge]
        | ok g2 => simp [Mesh.gGetE, h0, hN, hge] at h
      · cases hd : U.vedo_decimate m.v m.f (some 500) none with
        | error a => simp [Mesh.gGetE, h0, hN, hd]
        | ok d =>
          cases hge : U.geodesicMatrix d.1 d.2.1 with
          | error a => simp [Mesh.gGetE, h0, hN, hd, hge]
          | ok gp =>
            cases hex : U.extrapolate_geodesic_matrix d.1 m.v gp d.2.1 with
            | error a => simp [Mesh.gGetE, h0, hN, hd, hge, hex]
            | ok ge => simp [Mesh.gGetE, h0, hN, hd, hge, hex] at h
    · simp [Mesh.gGetE, h0] at h
  · intro h
    by_cases hc : m.eigen.1.length = 0 ∨ msize m.eigen.2 = 0
    · rcases hl1 : Mesh.lGetE U m with ⟨res1, m1⟩
      have he1 : m1.eigen = m.eigen := by
        have := lGetE_keeps_eigen U m
        rw [hl1] at this
        exact this
      cases res1 with
      | error a =>
        unfold Mesh.eigenGetE
        rw [if_pos hc, hl1]
        exact he1
      | ok l =>
        rcases hm1 : Mesh.massGetE U m1 with ⟨res2, m2⟩
        have he2 : m2.eigen = m1.eigen := by
          have := massGetE_keeps_eigen U m1
          rw [hm1] at this
          exact this
        cases res2 with
        | error a =>
          unfold Mesh.eigenGetE
          rw [if_pos hc]
          simp only [hl1, hm1]
          exact he2.trans he1
        | ok mm =>
          cases hde : U.laplace_eigen_decomposition l mm m2.k with
          | error a =>
            unfold Mesh.eigenGetE
            rw [if_pos hc]
            simp only [hl1, hm1, hde]
            exact he2.trans he1
          | ok eg =>
            unfold Mesh.eigenGetE at h
            rw [if_pos hc] at h
            simp only [hl1, hm1, hde] at h
            exact absurd h (by simp)
    · unfold Mesh.eigenGetE at h
      rw [if_neg hc] at h
      exact Except.noConfusion h
  · intro h0 hN hge
    simp [Mesh.gGetE, h0, hN, hge]
  · intro hc hle
    rcases hl1 : Mesh.lGetE U m with ⟨res1, m1⟩
    rw [hl1] at hle
    simp at hle
    subst hle
    unfold Mesh.eigenGetE
    rw [if_pos hc, hl1]

/-- Witness for `failed_compute_preserves_cache` with routines that all
raise, on a fresh mesh with empty caches. -/
theorem failed_compute_witness :
    ((Mesh.gGetE errGeo mesh7).1 = Except.error "boom" ∧
      (Mesh.gGetE errGeo mesh7).2 = mesh7) ∧
    ((Mesh.eigenGetE errGeo mesh7).1 = Except.error "boom" ∧
      (Mesh.eigenGetE errGeo mesh7).2.eigen = mesh7.eigen) := by
  have H := failed_compute_preserves_cache errGeo mesh7 "boom"
  have h1 : (Mesh.gGetE errGeo mesh7).1 = Except.error "boom" :=
    H.2.2.1 rfl (by decide) rfl
  have h2 : (Mesh.eigenGetE errGeo mesh7).1 = Except.error "boom" :=
    H.2.2.2 (Or.inl rfl) rfl
  exact ⟨⟨h1, H.1 h1⟩, ⟨h2, H.2.1 h2⟩⟩

end MeshCorr
